import Mathlib

/-!
Verification development for the BetterVCardTools vCard conversion core
(src/app/vcards.py and src/app/utils.py).

Strings are modelled as `List Char` (`Str`).  Python `str` values are unicode
sequences, so this is a faithful value model; `lit` injects Lean string
literals.  Every Python `str.replace` call in the escaping primitive has a
single-character pattern, so the chain of replaces is embedded as a chain of
per-character substitutions (`replaceChar`).  `uuid4()` is modelled as an
input stream of identifier strings, since its value is random and never
inspected by the code.
-/

abbrev Str := List Char

def lit (s : String) : Str := s.data

def crlf : Str := ['\r', '\n']

/-- Single-character text replacement: `s.replace(pat, rep)` for a
one-character `pat` rewrites each occurrence independently. -/
def replaceChar (pat : Char) (rep : Str) (s : Str) : Str :=
  s.flatMap (fun a => if a = pat then rep else [a])

/-- Embeds `_escape` from src/app/vcards.py (textually identical to
`escape_text` in src/app/utils.py).  The Python source is the chain
`s.replace("\\", "\\\\").replace(";", r"\\;").replace(",", r"\\,")
.replace("\n", r"\\n").replace("\r", "")`; note that the raw strings
`r"\\;"`, `r"\\,"`, `r"\\n"` denote TWO backslashes followed by the
character, which is reproduced exactly here (`lit "\\\\;"` is `\`,`\`,`;`).
The innermost replacement is applied first, as in the source.  The Python
guard `if not s: return ""` agrees with the chain on the empty string. -/
def escape_text (s : Str) : Str :=
  replaceChar '\r' []
    (replaceChar '\n' (lit "\\\\n")
      (replaceChar ',' (lit "\\\\,")
        (replaceChar ';' (lit "\\\\;")
          (replaceChar '\\' (lit "\\\\") s))))

/-- Whitespace class of Python's `re` module (`\s`), restricted to its ASCII
members, which is what phone values and display names contain. -/
def isPySpace (c : Char) : Bool :=
  c = ' ' || c = '\t' || c = '\n' || c = '\r' || c = '\x0b' || c = '\x0c'

/-- Embeds the tokenization `[t for t in re.split(r"\s+", (fn or "").strip()) if t]`
from `_split_name`: splitting on whitespace runs and keeping the non-empty
chunks (leading/trailing whitespace only contributes empty chunks, so the
`strip()` is absorbed by the filter). -/
def tokenize (s : Str) : List Str :=
  (s.splitOnP isPySpace).filter (fun t => t ≠ [])

/-- Embeds `norm` inside `_split_name`: `re.sub(r"\.+$", "", t).lower()` —
strip trailing dots, then lowercase. -/
def normToken (t : Str) : Str :=
  ((t.reverse.dropWhile (fun c => c = '.')).reverse).map Char.toLower

def PREFIX_TOKENS : List Str := [lit "mr", lit "mrs", lit "ms", lit "dr", lit "prof"]

def SUFFIX_TOKENS : List Str := [lit "jr", lit "sr", lit "ii", lit "iii", lit "iv", lit "phd", lit "md"]

/-- Structured name record (`_split_name` result / vcards `n` dict); the
Python key `prefix` is called `pfx` here because of a Lean keyword clash. -/
structure NameStruct where
  family : Str
  given : Str
  additional : Str
  pfx : Str
  suffix : Str
deriving DecidableEq, Repr

/-- Embeds `" ".join(...)` style joins: `sep.join(ps)`. -/
def joinSep (sep : Str) (ps : List Str) : Str := (List.intersperse sep ps).flatten

/-- Embeds `_split_name` from src/app/vcards.py.  The Python truthiness tests
`if (prefix and suffix)` compare the matched tokens against the empty string;
matched tokens are never empty, so truthiness coincides with having matched.
The source's `len(core) == 1` and `len(core) >= 2` branches both set
`given = core[0]` and `family = " ".join(core[1:])` (the join of an empty
list being `""`), mirrored by the two match arms. -/
def split_name (fn : Str) : NameStruct :=
  let tokens := tokenize fn
  if h : tokens = [] then ⟨[], [], [], [], []⟩
  else
    let t0 := tokens.head h
    let tl := tokens.getLast h
    let pfx := if normToken t0 ∈ PREFIX_TOKENS then t0 else []
    let sfx := if normToken tl ∈ SUFFIX_TOKENS then tl else []
    let core :=
      if pfx ≠ [] ∧ sfx ≠ [] then (tokens.drop 1).dropLast
      else if pfx ≠ [] then tokens.drop 1
      else if sfx ≠ [] then tokens.dropLast
      else tokens
    match core with
    | [] => ⟨[], t0, [], pfx, sfx⟩
    | g :: rest =>
      if rest = [] then ⟨[], g, [], pfx, sfx⟩
      else ⟨joinSep (lit " ") rest, g, [], pfx, sfx⟩

/-- Python's `sorted` on a collection of distinct strings: any sorting
algorithm agrees on it, embedded via insertion sort under the lexicographic
order on `List Char` (Python compares strings by code point, the same
order). -/
def sortStrs (l : List Str) : List Str := l.insertionSort (· ≤ ·)

/-- Embeds `_normalize_types` from src/app/vcards.py (the variant used by the
serializer; it does not lowercase).  The Python `set(types or [])` is
embedded as `dedup`; `discard`/`remove` on a duplicate-free list is `erase`. -/
def normalize_types (kind : Str) (types : List Str) : List Str :=
  let t1 := types.dedup
  let t2 := if kind = lit "email" then t1.erase (lit "internet") else t1
  let t3 :=
    if kind = lit "tel" ∧ 1 < t2.length ∧ lit "voice" ∈ t2 then t2.erase (lit "voice")
    else t2
  sortStrs t3

/-- Embeds the character class `[\s()\-.]` stripped from phone values by
`normalize_tel_uri` (src/app/utils.py) and inline in `contact_to_vcard40`. -/
def stripPhone (s : Str) : Str :=
  s.filter (fun c => !(isPySpace c || c = '(' || c = ')' || c = '-' || c = '.'))

/-- Embeds `str.startswith`: `startsWithStr s pre` is true when `pre` is an
initial segment of `s`. -/
def startsWithStr : Str → Str → Bool
  | _, [] => true
  | [], _ :: _ => false
  | a :: as, b :: bs => a = b && startsWithStr as bs

/-- Embeds `normalize_tel_uri` from src/app/utils.py, identical to the inline
TEL handling in `contact_to_vcard40`. -/
def normalize_tel_uri (raw : Str) : Str :=
  let tel := stripPhone raw
  if startsWithStr tel (lit "tel:") then tel else lit "tel:" ++ tel

/-! ## The contact data model and the vCard 4.0 serializer -/

/-- Email/phone entry of the normalized contact dict: `{value, types}`. -/
structure TypedEntry where
  value : Str
  types : List Str
deriving DecidableEq, Repr

/-- Normalized contact produced by `parse_vcards` and consumed by
`contact_to_vcard40` (the dict shape documented in parse_vcards). -/
structure Contact where
  name : Option Str
  n : Option NameStruct
  emails : List TypedEntry
  phones : List TypedEntry
  org : Option (List Str)
  bday : Option Str
  notes : Option (List Str)
deriving DecidableEq, Repr

/-- Embeds `name = c.get("name") or "Unnamed"`: Python `or` falls through on
`None` and on the empty string. -/
def fnValueOf (c : Contact) : Str :=
  match c.name with
  | some s => if s = [] then lit "Unnamed" else s
  | none => lit "Unnamed"

/-- Embeds `n_struct = c.get("n") or {...}`: a present `n` dict always has
five keys, hence is truthy, so `or` falls through only on `None`. -/
def nStructOf (c : Contact) : NameStruct :=
  match c.n with
  | some ns => ns
  | none => ⟨[], fnValueOf c, [], [], []⟩

/-- Embeds `props.append("N:" + ";".join(n_fields))`. -/
def nProp (c : Contact) : Str :=
  lit "N:" ++ joinSep (lit ";")
    ([(nStructOf c).family, (nStructOf c).given, (nStructOf c).additional,
      (nStructOf c).pfx, (nStructOf c).suffix].map escape_text)

/-- Embeds `props.append(f"FN:{_escape(name)}")` (the braces are a Python
f-string interpolation). -/
def fnProp (c : Contact) : Str := lit "FN:" ++ escape_text (fnValueOf c)

/-- Embeds `type_param = f";TYPE={','.join(types)}" if types else ""` applied
to the output of `_normalize_types`. -/
def typeParam (kind : Str) (types : List Str) : Str :=
  let ts := normalize_types kind types
  if ts = [] then [] else lit ";TYPE=" ++ joinSep (lit ",") ts

/-- Embeds the EMAIL loop body of `contact_to_vcard40`. -/
def emailProp (e : TypedEntry) : Str :=
  lit "EMAIL" ++ typeParam (lit "email") e.types ++ lit ":" ++ escape_text e.value

/-- Embeds the TEL loop body of `contact_to_vcard40`; the inline
strip-and-prefix transformation is exactly `normalize_tel_uri`. -/
def telProp (p : TypedEntry) : Str :=
  lit "TEL" ++ typeParam (lit "tel") p.types ++ lit ";VALUE=uri:" ++
    escape_text (normalize_tel_uri p.value)

/-- Embeds `if c.get("org"): props.append("ORG:" + ";".join(comps))`; the
truthiness test skips both an absent and an empty organization list. -/
def orgLines (c : Contact) : List Str :=
  match c.org with
  | some comps =>
    if comps = [] then []
    else [lit "ORG:" ++ joinSep (lit ";") (comps.map escape_text)]
  | none => []

/-- Embeds `if c.get("bday"): props.append(f"BDAY:{...}")`; truthiness skips
an absent and an empty birthday string. -/
def bdayLines (c : Contact) : List Str :=
  match c.bday with
  | some b => if b = [] then [] else [lit "BDAY:" ++ escape_text b]
  | none => []

/-- Embeds `notes = c.get("notes") or []` followed by one NOTE property per
note. -/
def noteLines (c : Contact) : List Str :=
  (match c.notes with
   | some ns => ns
   | none => []).map (fun note => lit "NOTE:" ++ escape_text note)

def PRODID_LINE : Str := lit "PRODID:-//BetterVCardTools//v1.0//EN"

/-- The property list built by `contact_to_vcard40`, in the source's append
order; `uid` stands for the `uuid4()` value interpolated into the UID line. -/
def contact_props (uid : Str) (c : Contact) : List Str :=
  [lit "BEGIN:VCARD", lit "VERSION:4.0", nProp c, fnProp c]
    ++ c.emails.map emailProp
    ++ c.phones.map telProp
    ++ orgLines c
    ++ bdayLines c
    ++ noteLines c
    ++ [PRODID_LINE, lit "UID:urn:uuid:" ++ uid, lit "END:VCARD"]

/-- Embeds `return CRLF.join(props) + CRLF`. -/
def contact_to_vcard40 (uid : Str) (c : Contact) : Str :=
  joinSep crlf (contact_props uid c) ++ crlf

/-- Embeds `contacts_to_vcards40`: `"".join(contact_to_vcard40(c) for c in
contacts)`, with the stream of fresh `uuid4()` values supplied as `uids`
(the head is consumed by the first contact; an exhausted stream yields the
empty identifier, which no claim depends on). -/
def contacts_to_vcards40 : List Str → List Contact → Str
  | _, [] => []
  | uids, c :: cs =>
    contact_to_vcard40 (uids.headD []) c ++ contacts_to_vcards40 uids.tail cs

/-- Splits a character stream at each CRLF pair; a string that ends in CRLF
yields a trailing empty chunk. -/
def splitCRLF : Str → List Str
  | [] => [[]]
  | '\r' :: '\n' :: rest => [] :: splitCRLF rest
  | c :: rest =>
    match splitCRLF rest with
    | [] => [[c]]
    | l :: ls => (c :: l) :: ls

/-- Cleanliness of a contact: its raw type strings carry no carriage
returns.  This holds for everything `parse_vcards` produces (type values are
taken from single unfolded property lines) and is needed because type
parameters, unlike free-text values, are emitted without escaping. -/
def cleanEntry (e : TypedEntry) : Prop := ∀ t ∈ e.types, '\r' ∉ t

def cleanContact (c : Contact) : Prop :=
  (∀ e ∈ c.emails, cleanEntry e) ∧ (∀ p ∈ c.phones, cleanEntry p)

def cleanUids (uids : List Str) : Prop := ∀ u ∈ uids, '\r' ∉ u

instance (e : TypedEntry) : Decidable (cleanEntry e) := by
  unfold cleanEntry; infer_instance

instance (c : Contact) : Decidable (cleanContact c) := by
  unfold cleanContact; infer_instance

instance (uids : List Str) : Decidable (cleanUids uids) := by
  unfold cleanUids; infer_instance

/-- The full list of property lines the serializer emits for a contact
sequence, one block per contact in input order. -/
def allProps : List Str → List Contact → List Str
  | _, [] => []
  | uids, c :: cs => contact_props (uids.headD []) c ++ allProps uids.tail cs

/-- Two-character prefix of a line; each of the twelve property names the
serializer can emit starts with a distinct two-character prefix. -/
def pre2 (s : Str) : Str := s.take 2

/-! ## Model of per-field failure in parse_vcards

`parse_vcards` reads field values from the vobject component; converting a
raw value can raise, and every conversion sits inside `try/except` blocks.
A Python expression that either yields a value or raises is modelled by
`PyResult`; the per-field normalization below mirrors the `try/except`
nesting of the source exactly. -/

inductive PyResult (α : Type) where
  | ok (val : α)
  | exn
deriving DecidableEq, Repr

/-- Raw ORG property as accessed by parse_vcards: the first `try` evaluates
`[str(x) for x in (org_obj.value or [])]`, the fallback `try` evaluates
`str(org_obj.value)`; each can raise. -/
structure RawOrg where
  listForm : PyResult (List Str)
  strForm : PyResult Str
deriving DecidableEq, Repr

/-- Raw BDAY value: either it has an `isoformat` attribute — then
`val.date().isoformat()` is attempted with `val.isoformat()` as the inner
`except` fallback — or it is stringified. -/
inductive RawBday where
  | withIso (datePart : PyResult Str) (fullIso : PyResult Str)
  | text (s : Str)
deriving DecidableEq, Repr

/-- One raw vCard component as surfaced by the vobject tokenizer to the
normalization code in `parse_vcards` (emails/phones carry their
already-extracted type lists). -/
structure RawComponent where
  fn : Option Str
  n : Option NameStruct
  emails : List TypedEntry
  phones : List TypedEntry
  orgRaw : Option RawOrg
  bdayRaw : Option (PyResult RawBday)
  notesRaw : Option (PyResult (List Str))
deriving DecidableEq, Repr

/-- Embeds the ORG block of parse_vcards: list form, else string fallback,
else `None`. -/
def normalizeOrg : Option RawOrg → Option (List Str)
  | none => none
  | some r =>
    match r.listForm with
    | .ok l => some l
    | .exn =>
      match r.strForm with
      | .ok s => some [s]
      | .exn => none

/-- Embeds the BDAY block of parse_vcards: the outer `try` catches any
raise (including one from the inner fallback) and degrades to `None`. -/
def normalizeBday : Option (PyResult RawBday) → Option Str
  | none => none
  | some .exn => none
  | some (.ok (.text s)) => some s
  | some (.ok (.withIso (.ok d) _)) => some d
  | some (.ok (.withIso .exn (.ok full))) => some full
  | some (.ok (.withIso .exn .exn)) => none

/-- Embeds the NOTE block of parse_vcards: the comprehension either yields
the list of note strings or raises, degrading to `None`. -/
def normalizeNotes : Option (PyResult (List Str)) → Option (List Str)
  | none => none
  | some .exn => none
  | some (.ok l) => some l

/-- Embeds the per-component body of the parse_vcards loop (everything after
the vobject tokenizer): the contact dict constructed for one component.
`n` falls back to `_split_name(str(fn_val)) if fn_val else None`, where the
truthiness test also rejects an empty FN string. -/
def normalizeComponent (r : RawComponent) : Contact :=
  { name := r.fn
    n :=
      match r.n with
      | some ns => some ns
      | none =>
        match r.fn with
        | some s => if s = [] then none else some (split_name s)
        | none => none
    emails := r.emails
    phones := r.phones
    org := normalizeOrg r.orgRaw
    bday := normalizeBday r.bdayRaw
    notes := normalizeNotes r.notesRaw }

/-- Follows the claim's wording for the name-splitting heuristic (C8), for
comparison with the source-derived `split_name`: tokenize on whitespace;
treat the first token as prefix when its normalization is in the prefix set,
the last token as suffix when in the suffix set; remove the matched tokens
and distribute the remaining core tokens. -/
def split_name_claim (fn : Str) : NameStruct :=
  let tokens := tokenize fn
  if h : tokens = [] then ⟨[], [], [], [], []⟩
  else
    let t0 := tokens.head h
    let tl := tokens.getLast h
    let hasP := normToken t0 ∈ PREFIX_TOKENS
    let hasS := normToken tl ∈ SUFFIX_TOKENS
    let m1 := if hasP then tokens.drop 1 else tokens
    let core := if hasS then m1.dropLast else m1
    match core with
    | [] => ⟨[], t0, [], if hasP then t0 else [], if hasS then tl else []⟩
    | g :: rest =>
      if rest = [] then
        ⟨[], g, [], if hasP then t0 else [], if hasS then tl else []⟩
      else
        ⟨joinSep (lit " ") rest, g, [],
         if hasP then t0 else [], if hasS then tl else []⟩

/-! ## Sample inputs used by witnesses and counterexamples -/

/-- Contact produced for a component with no FN and no N property. -/
def sampleEmpty : Contact := ⟨none, none, [], [], none, none, none⟩

/-- Raw component with no FN and no N property. -/
def rawEmpty : RawComponent := ⟨none, none, [], [], none, none, none⟩

/-- The contact of the spec's concrete scenario (normalized form). -/
def sampleDoe : Contact :=
  ⟨some (lit "John Doe"), some ⟨lit "Doe", lit "John", [], [], []⟩,
   [⟨lit "john.doe@example.com", [lit "work"]⟩],
   [⟨lit " +1 555 0100", [lit "cell", lit "home"]⟩],
   some [lit "Acme", lit "Sales"], none, none⟩

/-! ## Sanity checks of the embeddings, against the repository's tests -/

example : lit "ab" = ['a', 'b'] := rfl
example : escape_text (lit "a,b") = lit "a\\\\,b" := by decide
example : escape_text (lit "x\r") = lit "x" := by decide
example : normalize_tel_uri (lit " +1 555 0100") = lit "tel:+15550100" := by decide
example : sortStrs [lit "home", lit "cell"] = [lit "cell", lit "home"] := by decide
example : normalize_types (lit "tel") [lit "voice", lit "work"] = [lit "work"] := by decide
example : normalize_types (lit "tel") [lit "voice"] = [lit "voice"] := by decide
example : normalize_types (lit "email") [lit "internet", lit "work"] = [lit "work"] := by decide
example : split_name (lit "Dr. John A Smith Jr") =
    ⟨lit "A Smith", lit "John", [], lit "Dr.", lit "Jr"⟩ := by decide
example : split_name (lit "Cher") = ⟨[], lit "Cher", [], [], []⟩ := by decide
example : split_name (lit "Mr") = ⟨[], lit "Mr", [], lit "Mr", []⟩ := by decide

example :
    telProp ⟨lit " +1 555 0100", [lit "cell", lit "home"]⟩ =
      lit "TEL;TYPE=cell,home;VALUE=uri:tel:+15550100" := by decide

example :
    emailProp ⟨lit "john.doe@example.com", [lit "work"]⟩ =
      lit "EMAIL;TYPE=work:john.doe@example.com" := by decide

example :
    splitCRLF (contact_to_vcard40 (lit "u") ⟨none, none, [], [], none, none, none⟩) =
      [lit "BEGIN:VCARD", lit "VERSION:4.0", lit "N:;Unnamed;;;", lit "FN:Unnamed",
       PRODID_LINE, lit "UID:urn:uuid:u", lit "END:VCARD", []] := by decide

/-! ## Structural lemmas about escaping, joining and line splitting -/

theorem escape_text_append (a b : Str) :
    escape_text (a ++ b) = escape_text a ++ escape_text b := by
  simp [escape_text, replaceChar, List.flatMap_append]

theorem escape_single (c : Char) :
    escape_text [c] =
      if c = '\\' then lit "\\\\"
      else if c = ';' then lit "\\\\;"
      else if c = ',' then lit "\\\\,"
      else if c = '\n' then lit "\\\\n"
      else if c = '\r' then []
      else [c] := by
  by_cases h1 : c = '\\'
  · subst h1; decide
  by_cases h2 : c = ';'
  · subst h2; decide
  by_cases h3 : c = ','
  · subst h3; decide
  by_cases h4 : c = '\n'
  · subst h4; decide
  by_cases h5 : c = '\r'
  · subst h5; decide
  simp [escape_text, replaceChar, h1, h2, h3, h4, h5]

theorem noCR_escape (s : Str) : '\r' ∉ escape_text s := by
  induction s with
  | nil => simp [escape_text, replaceChar]
  | cons c s ih =>
    have hsplit : escape_text (c :: s) = escape_text [c] ++ escape_text s := by
      have := escape_text_append [c] s
      simpa using this
    rw [hsplit]
    intro hmem
    rcases List.mem_append.mp hmem with h | h
    · rw [escape_single] at h
      split_ifs at h with h1 h2 h3 h4 h5
      · exact absurd h (by decide)
      · exact absurd h (by decide)
      · exact absurd h (by decide)
      · exact absurd h (by decide)
      · exact absurd h (by decide)
      · simp at h; exact h5 h.symm
    · exact ih h

theorem mem_intersperse {α : Type} {a sep : α} : ∀ {l : List α},
    a ∈ List.intersperse sep l → a = sep ∨ a ∈ l
  | [], h => by simp at h
  | [b], h => by
    simp only [List.intersperse_singleton] at h
    exact Or.inr h
  | b :: c :: t, h => by
    rw [List.intersperse_cons_cons] at h
    rcases List.mem_cons.mp h with h | h
    · exact Or.inr (by simp [h])
    rcases List.mem_cons.mp h with h | h
    · exact Or.inl h
    rcases mem_intersperse h with h' | h'
    · exact Or.inl h'
    · exact Or.inr (List.mem_cons_of_mem _ h')

theorem noCR_joinSep {sep : Str} {ps : List Str} (hs : '\r' ∉ sep)
    (hp : ∀ p ∈ ps, '\r' ∉ p) : '\r' ∉ joinSep sep ps := by
  intro hmem
  rcases List.mem_flatten.mp hmem with ⟨x, hx, hcx⟩
  rcases mem_intersperse hx with h | h
  · exact hs (h ▸ hcx)
  · exact hp x h hcx

theorem mem_normalize_types {kind : Str} {ts : List Str} {t : Str}
    (h : t ∈ normalize_types kind ts) : t ∈ ts := by
  simp only [normalize_types, sortStrs] at h
  have h3 := (List.perm_insertionSort _ _).mem_iff.mp h
  split_ifs at h3
  all_goals
    repeat
      first
      | exact List.mem_dedup.mp h3
      | replace h3 := List.mem_of_mem_erase h3


theorem noCR_typeParam {kind : Str} {types : List Str}
    (h : ∀ t ∈ types, '\r' ∉ t) : '\r' ∉ typeParam kind types := by
  by_cases hts : normalize_types kind types = []
  · simp [typeParam, hts]
  · rw [typeParam]
    simp only [hts, if_false]
    intro hmem
    rcases List.mem_append.mp hmem with hm | hm
    · exact absurd hm (by decide)
    · exact noCR_joinSep (by decide)
        (fun p hp => h p (mem_normalize_types hp)) hm

theorem noCR_nProp (c : Contact) : '\r' ∉ nProp c := by
  intro hmem
  rcases List.mem_append.mp hmem with hm | hm
  · exact absurd hm (by decide)
  · refine noCR_joinSep (by decide) (fun p hp => ?_) hm
    simp only [List.mem_map] at hp
    obtain ⟨x, _, hx⟩ := hp
    exact hx ▸ noCR_escape x

theorem noCR_fnProp (c : Contact) : '\r' ∉ fnProp c := by
  intro hmem
  rcases List.mem_append.mp hmem with hm | hm
  · exact absurd hm (by decide)
  · exact noCR_escape _ hm

theorem noCR_emailProp {e : TypedEntry} (h : cleanEntry e) : '\r' ∉ emailProp e := by
  intro hmem
  rcases List.mem_append.mp hmem with hm | hm
  · rcases List.mem_append.mp hm with hm2 | hm2
    · rcases List.mem_append.mp hm2 with hm3 | hm3
      · exact absurd hm3 (by decide)
      · exact noCR_typeParam h hm3
    · exact absurd hm2 (by decide)
  · exact noCR_escape _ hm

theorem noCR_telProp {p : TypedEntry} (h : cleanEntry p) : '\r' ∉ telProp p := by
  intro hmem
  rcases List.mem_append.mp hmem with hm | hm
  · rcases List.mem_append.mp hm with hm2 | hm2
    · rcases List.mem_append.mp hm2 with hm3 | hm3
      · exact absurd hm3 (by decide)
      · exact noCR_typeParam h hm3
    · exact absurd hm2 (by decide)
  · exact noCR_escape _ hm

theorem noCR_orgLines {c : Contact} {l : Str} (h : l ∈ orgLines c) : '\r' ∉ l := by
  unfold orgLines at h
  split at h
  · split at h
    · cases h
    · simp only [List.mem_singleton] at h
      subst h
      intro hmem
      rcases List.mem_append.mp hmem with hm | hm
      · exact absurd hm (by decide)
      · refine noCR_joinSep (by decide) (fun p hp => ?_) hm
        simp only [List.mem_map] at hp
        obtain ⟨x, _, hx⟩ := hp
        exact hx ▸ noCR_escape x
  · cases h

theorem noCR_bdayLines {c : Contact} {l : Str} (h : l ∈ bdayLines c) : '\r' ∉ l := by
  unfold bdayLines at h
  split at h
  · split at h
    · cases h
    · simp only [List.mem_singleton] at h
      subst h
      intro hmem
      rcases List.mem_append.mp hmem with hm | hm
      · exact absurd hm (by decide)
      · exact noCR_escape _ hm
  · cases h

theorem noCR_noteLines {c : Contact} {l : Str} (h : l ∈ noteLines c) : '\r' ∉ l := by
  unfold noteLines at h
  simp only [List.mem_map] at h
  obtain ⟨x, _, hx⟩ := h
  subst hx
  intro hmem
  rcases List.mem_append.mp hmem with hm | hm
  · exact absurd hm (by decide)
  · exact noCR_escape _ hm

theorem noCR_contact_props {uid : Str} {c : Contact}
    (hc : cleanContact c) (hu : '\r' ∉ uid) :
    ∀ p ∈ contact_props uid c, '\r' ∉ p := by
  intro p hp
  unfold contact_props at hp
  rcases List.mem_append.mp hp with h | h
  case _ =>
    rcases List.mem_append.mp h with h | h
    case _ =>
      rcases List.mem_append.mp h with h | h
      case _ =>
        rcases List.mem_append.mp h with h | h
        case _ =>
          rcases List.mem_append.mp h with h | h
          case _ =>
            rcases List.mem_append.mp h with h | h
            case _ =>
              rcases List.mem_cons.mp h with h | h
              · exact h ▸ (by decide)
              rcases List.mem_cons.mp h with h | h
              · exact h ▸ (by decide)
              rcases List.mem_cons.mp h with h | h
              · exact h ▸ noCR_nProp c
              rcases List.mem_cons.mp h with h | h
              · exact h ▸ noCR_fnProp c
              · cases h
            case _ =>
              simp only [List.mem_map] at h
              obtain ⟨e, he, hx⟩ := h
              exact hx ▸ noCR_emailProp (hc.1 e he)
          case _ =>
            simp only [List.mem_map] at h
            obtain ⟨e, he, hx⟩ := h
            exact hx ▸ noCR_telProp (hc.2 e he)
        case _ => exact noCR_orgLines h
      case _ => exact noCR_bdayLines h
    case _ => exact noCR_noteLines h
  case _ =>
    rcases List.mem_cons.mp h with h | h
    · exact h ▸ (by decide)
    rcases List.mem_cons.mp h with h | h
    · subst h
      intro hmem
      rcases List.mem_append.mp hmem with hm | hm
      · exact absurd hm (by decide)
      · exact hu hm
    rcases List.mem_cons.mp h with h | h
    · exact h ▸ (by decide)
    · cases h

theorem splitCRLF_cons (c : Char) (rest : Str) (h : c ≠ '\r') :
    splitCRLF (c :: rest) =
      match splitCRLF rest with
      | [] => [[c]]
      | l :: ls => (c :: l) :: ls := by
  rw [splitCRLF.eq_def]
  split
  · rename_i heq; cases heq
  · rename_i heq
    injection heq with h1 _
    exact absurd h1 h
  · rename_i heq
    injection heq with h1 h2
    subst h1; subst h2
    rfl

theorem splitCRLF_line (l rest : Str) (h : '\r' ∉ l) :
    splitCRLF (l ++ (crlf ++ rest)) = l :: splitCRLF rest := by
  induction l with
  | nil =>
    show splitCRLF ('\r' :: '\n' :: rest) = [] :: splitCRLF rest
    rfl
  | cons c l ih =>
    have hc : c ≠ '\r' := fun hh => h (hh ▸ List.mem_cons_self c l)
    have h' : '\r' ∉ l := fun hh => h (List.mem_cons_of_mem _ hh)
    rw [List.cons_append, splitCRLF_cons c _ hc, ih h']

theorem splitCRLF_join (ps : List Str) (rest : Str) (hne : ps ≠ [])
    (hp : ∀ p ∈ ps, '\r' ∉ p) :
    splitCRLF (joinSep crlf ps ++ (crlf ++ rest)) = ps ++ splitCRLF rest := by
  induction ps with
  | nil => exact absurd rfl hne
  | cons p ps ih =>
    cases ps with
    | nil =>
      have hj : joinSep crlf [p] = p := by simp [joinSep]
      rw [hj, splitCRLF_line p rest (hp p (by simp))]
      rfl
    | cons q qs =>
      have hj : joinSep crlf (p :: q :: qs) = p ++ (crlf ++ joinSep crlf (q :: qs)) := by
        simp [joinSep, List.intersperse_cons_cons]
      rw [hj, List.append_assoc, List.append_assoc,
        splitCRLF_line p _ (hp p (by simp)),
        ih (by simp) (fun x hx => hp x (List.mem_cons_of_mem _ hx))]
      rfl


theorem contact_props_ne_nil (uid : Str) (c : Contact) :
    contact_props uid c ≠ [] := by
  unfold contact_props
  simp

theorem splitCRLF_contacts (uids : List Str) (cs : List Contact)
    (hu : cleanUids uids) (hc : ∀ c ∈ cs, cleanContact c) :
    splitCRLF (contacts_to_vcards40 uids cs) = allProps uids cs ++ [[]] := by
  induction cs generalizing uids with
  | nil => rfl
  | cons c cs ih =>
    have h1 : cleanContact c := hc c (by simp)
    have hu0 : '\r' ∉ uids.headD [] := by
      cases uids with
      | nil => simp
      | cons u us => exact hu u (by simp)
    have hu' : cleanUids uids.tail := fun u h => hu u (List.mem_of_mem_tail h)
    show splitCRLF ((joinSep crlf (contact_props (uids.headD []) c) ++ crlf) ++
        contacts_to_vcards40 uids.tail cs) = _
    rw [List.append_assoc,
      splitCRLF_join _ _ (contact_props_ne_nil _ _) (noCR_contact_props h1 hu0),
      ih uids.tail hu' (fun x hx => hc x (List.mem_cons_of_mem _ hx))]
    simp [allProps]

theorem joinSep_crlf_flatten (ps : List Str) (hne : ps ≠ []) :
    joinSep crlf ps ++ crlf = (ps.map (fun p => p ++ crlf)).flatten := by
  induction ps with
  | nil => exact absurd rfl hne
  | cons p ps ih =>
    cases ps with
    | nil => simp [joinSep]
    | cons q qs =>
      have hj : joinSep crlf (p :: q :: qs) = p ++ (crlf ++ joinSep crlf (q :: qs)) := by
        simp [joinSep, List.intersperse_cons_cons]
      rw [hj, List.map_cons, List.flatten_cons, ← ih (by simp)]
      simp

/-- Every serialized property line, including the last one of the last
component, is terminated by CRLF, and components are concatenated with no
separator: the whole output is the flat concatenation of CRLF-terminated
lines. -/
theorem contacts_flatten (uids : List Str) (cs : List Contact) :
    contacts_to_vcards40 uids cs =
      ((allProps uids cs).map (fun p => p ++ crlf)).flatten := by
  induction cs generalizing uids with
  | nil => rfl
  | cons c cs ih =>
    show (joinSep crlf (contact_props (uids.headD []) c) ++ crlf) ++
        contacts_to_vcards40 uids.tail cs = _
    rw [joinSep_crlf_flatten _ (contact_props_ne_nil _ _), ih uids.tail]
    simp [allProps]

/-! ## Counting the envelope lines -/


theorem ne_of_pre2 {s t : Str} (h : pre2 s ≠ pre2 t) : s ≠ t :=
  fun he => h (he ▸ rfl)

theorem pre2_nProp (c : Contact) : pre2 (nProp c) = lit "N:" := rfl

theorem pre2_fnProp (c : Contact) : pre2 (fnProp c) = lit "FN" := rfl

theorem pre2_emailProp (e : TypedEntry) : pre2 (emailProp e) = lit "EM" := rfl

theorem pre2_telProp (p : TypedEntry) : pre2 (telProp p) = lit "TE" := rfl

theorem pre2_uidLine (uid : Str) : pre2 (lit "UID:urn:uuid:" ++ uid) = lit "UI" := rfl

theorem pre2_orgLines {c : Contact} {l : Str} (h : l ∈ orgLines c) :
    pre2 l = lit "OR" := by
  unfold orgLines at h
  split at h
  · split at h
    · cases h
    · simp only [List.mem_singleton] at h
      subst h; rfl
  · cases h

theorem pre2_bdayLines {c : Contact} {l : Str} (h : l ∈ bdayLines c) :
    pre2 l = lit "BD" := by
  unfold bdayLines at h
  split at h
  · split at h
    · cases h
    · simp only [List.mem_singleton] at h
      subst h; rfl
  · cases h

theorem pre2_noteLines {c : Contact} {l : Str} (h : l ∈ noteLines c) :
    pre2 l = lit "NO" := by
  unfold noteLines at h
  simp only [List.mem_map] at h
  obtain ⟨x, _, hx⟩ := h
  subst hx; rfl

theorem count_zero_of_pre2 {l : List Str} {x : Str} (w : Str)
    (hw : ∀ p ∈ l, pre2 p = w) (hx : w ≠ pre2 x) : l.count x = 0 :=
  List.count_eq_zero.mpr (fun hm => hx (by rw [← hw x hm]))

theorem pre2_mem_map_email {es : List TypedEntry} {p : Str}
    (h : p ∈ es.map emailProp) : pre2 p = lit "EM" := by
  simp only [List.mem_map] at h
  obtain ⟨e, _, he⟩ := h
  exact he ▸ rfl

theorem pre2_mem_map_tel {ps : List TypedEntry} {p : Str}
    (h : p ∈ ps.map telProp) : pre2 p = lit "TE" := by
  simp only [List.mem_map] at h
  obtain ⟨e, _, he⟩ := h
  exact he ▸ rfl

theorem count_props_marker (uid : Str) (c : Contact) (x : Str)
    (hx : x = lit "BEGIN:VCARD" ∨ x = lit "VERSION:4.0" ∨ x = lit "END:VCARD") :
    (contact_props uid c).count x = 1 := by
  have hn : nProp c ≠ x := by
    rcases hx with h | h | h <;> subst h <;>
      exact ne_of_pre2 (by rw [pre2_nProp]; decide)
  have hf : fnProp c ≠ x := by
    rcases hx with h | h | h <;> subst h <;>
      exact ne_of_pre2 (by rw [pre2_fnProp]; decide)
  have hu : lit "UID:urn:uuid:" ++ uid ≠ x := by
    rcases hx with h | h | h <;> subst h <;>
      exact ne_of_pre2 (by rw [pre2_uidLine]; decide)
  have hem : (c.emails.map emailProp).count x = 0 := by
    refine count_zero_of_pre2 (lit "EM") (fun p hp => pre2_mem_map_email hp) ?_
    rcases hx with h | h | h <;> subst h <;> decide
  have htl : (c.phones.map telProp).count x = 0 := by
    refine count_zero_of_pre2 (lit "TE") (fun p hp => pre2_mem_map_tel hp) ?_
    rcases hx with h | h | h <;> subst h <;> decide
  have hor : (orgLines c).count x = 0 := by
    refine count_zero_of_pre2 (lit "OR") (fun p hp => pre2_orgLines hp) ?_
    rcases hx with h | h | h <;> subst h <;> decide
  have hbd : (bdayLines c).count x = 0 := by
    refine count_zero_of_pre2 (lit "BD") (fun p hp => pre2_bdayLines hp) ?_
    rcases hx with h | h | h <;> subst h <;> decide
  have hnt : (noteLines c).count x = 0 := by
    refine count_zero_of_pre2 (lit "NO") (fun p hp => pre2_noteLines hp) ?_
    rcases hx with h | h | h <;> subst h <;> decide
  unfold contact_props
  simp only [List.count_append, hem, htl, hor, hbd, hnt]
  rcases hx with h | h | h <;> subst h <;>
    simp [List.count_cons, hn, hf, hu] <;> decide

theorem count_allProps (uids : List Str) (cs : List Contact) (x : Str)
    (h1 : ∀ uid c, (contact_props uid c).count x = 1) :
    (allProps uids cs).count x = cs.length := by
  induction cs generalizing uids with
  | nil => rfl
  | cons c cs ih =>
    show (contact_props (uids.headD []) c ++ allProps uids.tail cs).count x = cs.length + 1
    rw [List.count_append, h1, ih uids.tail]
    omega

theorem splitCRLF_contact (uid : Str) (c : Contact)
    (hc : cleanContact c) (hu : '\r' ∉ uid) :
    splitCRLF (contact_to_vcard40 uid c) = contact_props uid c ++ [[]] := by
  have h := splitCRLF_join (contact_props uid c) []
    (contact_props_ne_nil _ _) (noCR_contact_props hc hu)
  simpa [contact_to_vcard40] using h

/-! ## Lemmas about the tel URI transformation -/

theorem startsWithStr_iff : ∀ (s pre : Str),
    startsWithStr s pre = true ↔ ∃ r, s = pre ++ r
  | s, [] => by simp [startsWithStr]
  | [], b :: bs => by simp [startsWithStr]
  | a :: as, b :: bs => by
    simp only [startsWithStr, Bool.and_eq_true, decide_eq_true_eq]
    constructor
    · rintro ⟨rfl, h⟩
      obtain ⟨r, hr⟩ := (startsWithStr_iff as bs).mp h
      exact ⟨r, by rw [List.cons_append, hr]⟩
    · rintro ⟨r, hr⟩
      rw [List.cons_append] at hr
      injection hr with h1 h2
      exact ⟨h1, (startsWithStr_iff as bs).mpr ⟨r, h2⟩⟩

theorem stripPhone_append (a b : Str) :
    stripPhone (a ++ b) = stripPhone a ++ stripPhone b := by
  simp [stripPhone]

theorem stripPhone_idem (s : Str) : stripPhone (stripPhone s) = stripPhone s := by
  simp [stripPhone, List.filter_filter]

theorem normalize_tel_uri_tel (raw : Str) :
    ∃ r, normalize_tel_uri raw = lit "tel:" ++ r := by
  have key : normalize_tel_uri raw =
      if startsWithStr (stripPhone raw) (lit "tel:") then stripPhone raw
      else lit "tel:" ++ stripPhone raw := rfl
  by_cases h : startsWithStr (stripPhone raw) (lit "tel:") = true
  · obtain ⟨r, hr⟩ := (startsWithStr_iff _ _).mp h
    refine ⟨r, ?_⟩
    rw [key, h]
    simpa using hr
  · refine ⟨stripPhone raw, ?_⟩
    rw [key]
    simp [h]

theorem escape_tel (r : Str) :
    escape_text (lit "tel:" ++ r) = lit "tel:" ++ escape_text r := by
  rw [escape_text_append]
  rfl

theorem strip_normalize (raw : Str) :
    stripPhone (normalize_tel_uri raw) = normalize_tel_uri raw := by
  have htel : stripPhone (lit "tel:") = lit "tel:" := by decide
  by_cases h : startsWithStr (stripPhone raw) (lit "tel:") = true
  · simp [normalize_tel_uri, h, stripPhone_idem]
  · simp [normalize_tel_uri, h, stripPhone_append, stripPhone_idem, htel]


theorem normalize_types_sorted (kind : Str) (ts : List Str) :
    List.Sorted (· ≤ ·) (normalize_types kind ts) :=
  List.sorted_insertionSort _ _

theorem normalize_types_nodup (kind : Str) (ts : List Str) :
    (normalize_types kind ts).Nodup := by
  have h1 : ts.dedup.Nodup := List.nodup_dedup ts
  have h2 : (if kind = lit "email" then ts.dedup.erase (lit "internet")
      else ts.dedup).Nodup := by
    split
    · exact h1.erase _
    · exact h1
  set t2 := if kind = lit "email" then ts.dedup.erase (lit "internet") else ts.dedup
    with ht2
  have h3 : (if kind = lit "tel" ∧ 1 < t2.length ∧ lit "voice" ∈ t2
      then t2.erase (lit "voice") else t2).Nodup := by
    split
    · exact h2.erase _
    · exact h2
  have key : normalize_types kind ts =
      sortStrs (if kind = lit "tel" ∧ 1 < t2.length ∧ lit "voice" ∈ t2
        then t2.erase (lit "voice") else t2) := rfl
  rw [key]
  exact ((List.perm_insertionSort _ _).nodup_iff).mpr h3

theorem normalize_types_email_no_internet (ts : List Str) :
    lit "internet" ∉ normalize_types (lit "email") ts := by
  intro h
  have key : normalize_types (lit "email") ts =
      sortStrs (ts.dedup.erase (lit "internet")) := by
    have h1 : (lit "email" = lit "email") = True := by simp
    have h2 : (lit "email" = lit "tel") = False := by simp [lit]
    simp only [normalize_types, h1, h2, if_true, false_and, if_false]
  rw [key] at h
  have h2 := (List.perm_insertionSort _ _).mem_iff.mp h
  have h3 := ((List.nodup_dedup ts).mem_erase_iff).mp h2
  exact h3.1 rfl

theorem normalize_types_tel_voice (ts : List Str)
    (h : lit "voice" ∈ normalize_types (lit "tel") ts) :
    normalize_types (lit "tel") ts = [lit "voice"] := by
  have h2 : (lit "tel" = lit "email") = False := by simp [lit]
  have key : normalize_types (lit "tel") ts =
      sortStrs (if lit "tel" = lit "tel" ∧ 1 < ts.dedup.length ∧ lit "voice" ∈ ts.dedup
        then ts.dedup.erase (lit "voice") else ts.dedup) := by
    simp only [normalize_types, h2, if_false]
  rw [key] at h ⊢
  split at h
  · have hm := (List.perm_insertionSort _ _).mem_iff.mp h
    have h3 := ((List.nodup_dedup ts).mem_erase_iff).mp hm
    exact absurd rfl h3.1
  · rename_i hC
    have hm := (List.perm_insertionSort _ _).mem_iff.mp h
    have hlen : ts.dedup.length ≤ 1 := by
      by_contra hgt
      exact hC ⟨rfl, by omega, hm⟩
    have hne : ts.dedup ≠ [] := fun hnil => by simp [hnil] at hm
    have hone : ts.dedup.length = 1 := by
      have := List.length_pos.mpr hne
      omega
    obtain ⟨a, ha⟩ := List.length_eq_one.mp hone
    rw [ha] at hm
    simp only [List.mem_singleton] at hm
    split
    · rename_i hC2
      rw [ha] at hC2
      simp at hC2
    · rw [ha, ← hm]
      rfl


theorem tokenize_mem_ne_nil {s t : Str} (h : t ∈ tokenize s) : t ≠ [] := by
  simp only [tokenize, List.mem_filter] at h
  simpa using h.2

/-! ## The claims -/

/-- C1: serializing a parsed contact list of N components (`parse_vcards`
appends exactly one contact per component the tokenizer yields) produces
output with exactly N `BEGIN:VCARD` lines, N `END:VCARD` lines and N
`VERSION:4.0` lines, and every single component's serialization contains a
`VERSION:4.0` line.  Cleanliness hypotheses record that raw type strings
and uids contain no carriage return (they come from single unfolded
property lines and `uuid4()` respectively). -/
theorem claim_C1_envelope (uids : List Str) (cs : List Contact)
    (hu : cleanUids uids) (hc : ∀ c ∈ cs, cleanContact c) :
    (splitCRLF (contacts_to_vcards40 uids cs)).count (lit "BEGIN:VCARD") = cs.length ∧
    (splitCRLF (contacts_to_vcards40 uids cs)).count (lit "END:VCARD") = cs.length ∧
    (splitCRLF (contacts_to_vcards40 uids cs)).count (lit "VERSION:4.0") = cs.length ∧
    ∀ uid c, cleanContact c → '\r' ∉ uid →
      lit "VERSION:4.0" ∈ splitCRLF (contact_to_vcard40 uid c) := by
  have hsplit := splitCRLF_contacts uids cs hu hc
  refine ⟨?_, ?_, ?_, ?_⟩
  · rw [hsplit, List.count_append,
      count_allProps _ _ _ (fun uid c => count_props_marker uid c _ (Or.inl rfl))]
    have h0 : ([[]] : List Str).count (lit "BEGIN:VCARD") = 0 := by decide
    omega
  · rw [hsplit, List.count_append,
      count_allProps _ _ _ (fun uid c => count_props_marker uid c _ (Or.inr (Or.inr rfl)))]
    have h0 : ([[]] : List Str).count (lit "END:VCARD") = 0 := by decide
    omega
  · rw [hsplit, List.count_append,
      count_allProps _ _ _ (fun uid c => count_props_marker uid c _ (Or.inr (Or.inl rfl)))]
    have h0 : ([[]] : List Str).count (lit "VERSION:4.0") = 0 := by decide
    omega
  · intro uid c hcc huu
    rw [splitCRLF_contact uid c hcc huu]
    refine List.mem_append.mpr (Or.inl ?_)
    simp [contact_props]

theorem claim_C1_envelope_witness :
    (splitCRLF (contacts_to_vcards40 [] [sampleEmpty, sampleDoe])).count
      (lit "BEGIN:VCARD") = 2 :=
  (claim_C1_envelope [] [sampleEmpty, sampleDoe] (by decide) (by decide)).1

/-- C2: evaluation of the escaping primitive.  The claim (and the source's
own RFC 6350 reference) requires a single backslash escape, but the Python
raw strings `r"\\;"`, `r"\\,"`, `r"\\n"` make the code emit TWO backslashes
for `;`, `,` and newline; only the backslash rule and CR stripping behave
as claimed. -/
theorem claim_C2_escape_eval :
    escape_text (lit "\\") = ['\\', '\\'] ∧
    escape_text (lit "\r") = [] ∧
    escape_text (lit ";") = ['\\', '\\', ';'] ∧
    escape_text (lit ";") ≠ ['\\', ';'] ∧
    escape_text (lit ",") = ['\\', '\\', ','] ∧
    escape_text (lit ",") ≠ ['\\', ','] ∧
    escape_text (lit "\n") = ['\\', '\\', 'n'] ∧
    escape_text (lit "\n") ≠ ['\\', 'n'] := by decide

/-- C3: emitted TYPE lists are sorted and duplicate-free; email lists never
contain "internet"; tel lists contain "voice" only as the sole element;
lowercase inputs (as produced by the parser's type extraction) stay
lowercase; and the `;TYPE=` parameter disappears entirely when the
normalized list is empty. -/
theorem claim_C3_types (kind : Str) (ts : List Str) :
    List.Sorted (· ≤ ·) (normalize_types kind ts) ∧
    (normalize_types kind ts).Nodup ∧
    (kind = lit "email" → lit "internet" ∉ normalize_types kind ts) ∧
    (kind = lit "tel" → lit "voice" ∈ normalize_types kind ts →
      normalize_types kind ts = [lit "voice"]) ∧
    ((∀ t ∈ ts, t.map Char.toLower = t) →
      ∀ t ∈ normalize_types kind ts, t.map Char.toLower = t) ∧
    (∀ e : TypedEntry, normalize_types (lit "email") e.types = [] →
      emailProp e = lit "EMAIL:" ++ escape_text e.value) ∧
    (∀ p : TypedEntry, normalize_types (lit "tel") p.types = [] →
      telProp p = lit "TEL;VALUE=uri:" ++ escape_text (normalize_tel_uri p.value)) := by
  refine ⟨normalize_types_sorted kind ts, normalize_types_nodup kind ts,
    ?_, ?_, ?_, ?_, ?_⟩
  · rintro rfl
    exact normalize_types_email_no_internet ts
  · rintro rfl
    exact normalize_types_tel_voice ts
  · intro hlow t ht
    exact hlow t (mem_normalize_types ht)
  · intro e he
    have h1 : typeParam (lit "email") e.types = [] := by simp [typeParam, he]
    show lit "EMAIL" ++ typeParam (lit "email") e.types ++ lit ":" ++
      escape_text e.value = _
    rw [h1]
    rfl
  · intro p hp
    have h1 : typeParam (lit "tel") p.types = [] := by simp [typeParam, hp]
    show lit "TEL" ++ typeParam (lit "tel") p.types ++ lit ";VALUE=uri:" ++
      escape_text (normalize_tel_uri p.value) = _
    rw [h1]
    rfl

theorem claim_C3_types_witness :
    lit "internet" ∉ normalize_types (lit "email") [lit "work", lit "internet"] :=
  (claim_C3_types (lit "email") [lit "work", lit "internet"]).2.2.1 rfl

/-- C4: every emitted TEL line carries the `;VALUE=uri:` parameter and a
`tel:`-prefixed value; the value is the stripped raw phone (whitespace,
parens, hyphens, periods removed) with `tel:` prepended exactly when the
stripped value does not already start with it. -/
theorem claim_C4_tel (p : TypedEntry) :
    telProp p = lit "TEL" ++ typeParam (lit "tel") p.types ++ lit ";VALUE=uri:" ++
      escape_text (normalize_tel_uri p.value) ∧
    (∃ l r, telProp p = l ++ lit ";VALUE=uri:" ++ r) ∧
    (∃ r, normalize_tel_uri p.value = lit "tel:" ++ r) ∧
    (∃ r, escape_text (normalize_tel_uri p.value) = lit "tel:" ++ r) ∧
    (startsWithStr (stripPhone p.value) (lit "tel:") = true →
      normalize_tel_uri p.value = stripPhone p.value) ∧
    (startsWithStr (stripPhone p.value) (lit "tel:") = false →
      normalize_tel_uri p.value = lit "tel:" ++ stripPhone p.value) := by
  have key : normalize_tel_uri p.value =
      if startsWithStr (stripPhone p.value) (lit "tel:") then stripPhone p.value
      else lit "tel:" ++ stripPhone p.value := rfl
  refine ⟨rfl, ?_, normalize_tel_uri_tel p.value, ?_, ?_, ?_⟩
  · exact ⟨lit "TEL" ++ typeParam (lit "tel") p.types,
      escape_text (normalize_tel_uri p.value), by simp [telProp, List.append_assoc]⟩
  · obtain ⟨r, hr⟩ := normalize_tel_uri_tel p.value
    exact ⟨escape_text r, by rw [hr, escape_tel]⟩
  · intro h
    rw [key, h]
    simp
  · intro h
    rw [key, h]
    simp

theorem claim_C4_tel_witness :
    normalize_tel_uri (lit "(555) 010-2000") = lit "tel:" ++ stripPhone (lit "(555) 010-2000") :=
  (claim_C4_tel ⟨lit "(555) 010-2000", []⟩).2.2.2.2.2 (by decide)

/-- C5 as stated is false: for the contact parsed from a component with no
FN and no N, the serialized output contains `N:;Unnamed;;;` (the
synthesized structured name receives `given = "Unnamed"`), not the claimed
`N:;;;;`. -/
theorem claim_C5_counterexample :
    normalizeComponent rawEmpty = sampleEmpty ∧
    lit "FN:Unnamed" ∈ splitCRLF (contact_to_vcard40 [] sampleEmpty) ∧
    lit "N:;Unnamed;;;" ∈ splitCRLF (contact_to_vcard40 [] sampleEmpty) ∧
    lit "N:;;;;" ∉ splitCRLF (contact_to_vcard40 [] sampleEmpty) := by decide

/-- C5 amended: a component with no FN and no N property serializes FN as
`Unnamed` and an N line whose synthesized given field is the FN fallback:
`N:;Unnamed;;;` (family empty, given `Unnamed`, remaining fields empty). -/
theorem claim_C5_amended (uid : Str) (c : Contact)
    (hname : c.name = none) (hn : c.n = none)
    (hc : cleanContact c) (hu : '\r' ∉ uid) :
    lit "FN:Unnamed" ∈ splitCRLF (contact_to_vcard40 uid c) ∧
    lit "N:;Unnamed;;;" ∈ splitCRLF (contact_to_vcard40 uid c) := by
  rw [splitCRLF_contact uid c hc hu]
  have hfn : fnValueOf c = lit "Unnamed" := by simp [fnValueOf, hname]
  have hfnp : fnProp c = lit "FN:Unnamed" := by
    show lit "FN:" ++ escape_text (fnValueOf c) = _
    rw [hfn]
    decide
  have hnst : nStructOf c = ⟨[], lit "Unnamed", [], [], []⟩ := by
    simp [nStructOf, hn, hfn]
  have hnp : nProp c = lit "N:;Unnamed;;;" := by
    show lit "N:" ++ joinSep (lit ";")
      ([(nStructOf c).family, (nStructOf c).given, (nStructOf c).additional,
        (nStructOf c).pfx, (nStructOf c).suffix].map escape_text) = _
    rw [hnst]
    decide
  refine ⟨List.mem_append.mpr (Or.inl ?_), List.mem_append.mpr (Or.inl ?_)⟩
  · rw [← hfnp]
    simp [contact_props]
  · rw [← hnp]
    simp [contact_props]

theorem claim_C5_amended_witness :
    lit "FN:Unnamed" ∈ splitCRLF (contact_to_vcard40 [] sampleEmpty) ∧
    lit "N:;Unnamed;;;" ∈ splitCRLF (contact_to_vcard40 [] sampleEmpty) :=
  claim_C5_amended [] sampleEmpty rfl rfl (by decide) (by decide)

/-- C6: the serializer always emits an N line of the five escaped fields
family, given, additional, prefix, suffix joined by `;`; with no structured
name the synthesized one has given equal to the FN value used (display name
when present and non-empty, else `Unnamed`) and all other fields empty. -/
theorem claim_C6_nline (uid : Str) (c : Contact) :
    nProp c ∈ contact_props uid c ∧
    nProp c = lit "N:" ++ joinSep (lit ";")
      ([(nStructOf c).family, (nStructOf c).given, (nStructOf c).additional,
        (nStructOf c).pfx, (nStructOf c).suffix].map escape_text) ∧
    (c.n = none → nStructOf c = ⟨[], fnValueOf c, [], [], []⟩) ∧
    (∀ ns, c.n = some ns → nStructOf c = ns) ∧
    (∀ s, c.name = some s → s ≠ [] → fnValueOf c = s) ∧
    ((c.name = none ∨ c.name = some []) → fnValueOf c = lit "Unnamed") := by
  refine ⟨by simp [contact_props], rfl, ?_, ?_, ?_, ?_⟩
  · intro h
    simp [nStructOf, h]
  · intro ns h
    simp [nStructOf, h]
  · intro s h hne
    simp [fnValueOf, h, hne]
  · rintro (h | h) <;> simp [fnValueOf, h]

theorem claim_C6_nline_witness :
    nStructOf sampleEmpty = ⟨[], fnValueOf sampleEmpty, [], [], []⟩ :=
  (claim_C6_nline [] sampleEmpty).2.2.1 rfl

/-- C7: the output is the concatenation, contact by contact in input order,
of the fixed-order property lines, each line (the final one included)
terminated by CRLF, components adjacent with no separator; splitting on
CRLF recovers exactly the property lines. -/
theorem claim_C7_order (uids : List Str) (cs : List Contact) :
    contacts_to_vcards40 uids cs =
      ((allProps uids cs).map (fun p => p ++ crlf)).flatten ∧
    (cleanUids uids → (∀ c ∈ cs, cleanContact c) →
      splitCRLF (contacts_to_vcards40 uids cs) = allProps uids cs ++ [[]]) ∧
    ∀ uid c, contact_props uid c =
      [lit "BEGIN:VCARD", lit "VERSION:4.0", nProp c, fnProp c]
        ++ c.emails.map emailProp ++ c.phones.map telProp
        ++ orgLines c ++ bdayLines c ++ noteLines c
        ++ [PRODID_LINE, lit "UID:urn:uuid:" ++ uid, lit "END:VCARD"] :=
  ⟨contacts_flatten uids cs, fun hu hc => splitCRLF_contacts uids cs hu hc,
   fun _ _ => rfl⟩

theorem claim_C7_order_witness :
    splitCRLF (contacts_to_vcards40 [] [sampleDoe]) = allProps [] [sampleDoe] ++ [[]] :=
  (claim_C7_order [] [sampleDoe]).2.1 (by decide) (by decide)

/-- C8: the name-splitting heuristic agrees, on every input, with the
claim's description (prefix/suffix token stripping followed by the
zero/one/many core-token distribution). -/
theorem claim_C8_split_name (fn : Str) : split_name fn = split_name_claim fn := by
  by_cases h : tokenize fn = []
  · simp [split_name, split_name_claim, h]
  · have ht0 : (tokenize fn).head h ≠ [] :=
      tokenize_mem_ne_nil (List.head_mem h)
    have htl : (tokenize fn).getLast h ≠ [] :=
      tokenize_mem_ne_nil (List.getLast_mem h)
    rw [split_name, split_name_claim]
    rw [dif_neg h, dif_neg h]
    by_cases hP : normToken ((tokenize fn).head h) ∈ PREFIX_TOKENS <;>
      by_cases hS : normToken ((tokenize fn).getLast h) ∈ SUFFIX_TOKENS <;>
        simp [hP, hS, ht0, htl]

/-- C9: per-field normalization failure degrades only that field to absent;
the rest of the contact is still constructed (normalization is a total
function of the raw component). -/
theorem claim_C9_field_degradation (r : RawComponent) :
    normalizeComponent { r with bdayRaw := some PyResult.exn } =
      { normalizeComponent r with bday := none } ∧
    normalizeComponent { r with orgRaw := some ⟨PyResult.exn, PyResult.exn⟩ } =
      { normalizeComponent r with org := none } ∧
    normalizeComponent { r with notesRaw := some PyResult.exn } =
      { normalizeComponent r with notes := none } ∧
    (normalizeComponent r).name = r.fn ∧
    (normalizeComponent r).emails = r.emails ∧
    (normalizeComponent r).phones = r.phones := by
  refine ⟨?_, ?_, ?_, rfl, rfl, rfl⟩ <;>
    simp [normalizeComponent, normalizeBday, normalizeOrg, normalizeNotes]

/-- C10: the phone normalization (strip punctuation, then prepend `tel:`
when missing) is idempotent. -/
theorem claim_C10_tel_idem (raw : Str) :
    normalize_tel_uri (normalize_tel_uri raw) = normalize_tel_uri raw := by
  obtain ⟨r, hr⟩ := normalize_tel_uri_tel raw
  have hs : startsWithStr (normalize_tel_uri raw) (lit "tel:") = true :=
    (startsWithStr_iff _ _).mpr ⟨r, hr⟩
  have key : normalize_tel_uri (normalize_tel_uri raw) =
      if startsWithStr (stripPhone (normalize_tel_uri raw)) (lit "tel:")
      then stripPhone (normalize_tel_uri raw)
      else lit "tel:" ++ stripPhone (normalize_tel_uri raw) := rfl
  rw [key, strip_normalize, hs]
  simp
